import Mathlib

/-!
Verification of the resumable sample-generation core of `evalplus/codegen.py`.

The development shallowly embeds the `codegen` function (resume scan, id-range
filter, per-task generation loop, the two output-writer branches) and the
greedy-override logic of `run_codegen`, and proves the specification's claims
about them.  External collaborators (the model backend, the sanitizer, the
dataset provider) are parameters, as the specification prescribes.
-/

set_option linter.unusedVariables false

namespace EvalPlus

/-- A benchmark task record: the prompt text and the entry-point name, the two
fields of a dataset record that `codegen` reads. -/
structure Task where
  prompt : String
  entry_point : String
deriving DecidableEq, Repr

/-- One persisted sample: task identifier, zero-based index, raw solution text
and sanitized solution text — exactly the data one iteration of the inner
`for impl in outputs` loop of `codegen` writes. -/
structure Sample where
  task_id : String
  sidx : Nat
  solution : String
  sanitized_solution : String
deriving DecidableEq, Repr

/-- One JSON record line of the sanitized or raw sample log: the result of
`json.dumps` of a task_id and a solution string. -/
structure LogLine where
  task_id : String
  solution : String
deriving DecidableEq, Repr

/-- One line of a pre-existing `.jsonl` log as the resume scanner sees it:
blank (`line.strip()` is empty), a well-formed record whose parse yields the
given task_id, or malformed (a line on which `json.loads` raises). -/
inductive Line where
  | blank : Line
  | record : String → Line
  | malformed : Line
deriving DecidableEq, Repr

/-- The resume scan over the lines of an existing log (codegen.py lines 30-35):
a blank line is skipped via `continue`; a well-formed line increments that
task's counter; a malformed line raises `json.JSONDecodeError`, aborting the
scan — there is no try/except around `json.loads`. -/
def scanLines : List Line → (String → Nat) → Except String (String → Nat)
  | [], t2n => .ok t2n
  | Line.blank :: rest, t2n => scanLines rest t2n
  | Line.record tid :: rest, t2n =>
      scanLines rest (fun u => if u = tid then t2n u + 1 else t2n u)
  | Line.malformed :: _, _ => .error "json.decoder.JSONDecodeError"

/-- Number of well-formed records carrying a given task id in a list of log
lines. -/
def countRecords (lines : List Line) (tid : String) : Nat :=
  (lines.filter (fun l => l = Line.record tid)).length

/-- Structural model of Python `str.split` with a one-character separator. -/
def splitOnChar (c : Char) : List Char → List (List Char)
  | [] => [[]]
  | x :: xs =>
    let r := splitOnChar c xs
    if x = c then [] :: r
    else
      match r with
      | [] => [[x]]
      | y :: ys => (x :: y) :: ys

/-- Decimal-digit accumulator used by parseIntChars; a non-digit character
fails the parse. -/
def digitsVal : List Char → Nat → Option Nat
  | [], acc => some acc
  | ch :: rest, acc =>
    if ch.isDigit then digitsVal rest (acc * 10 + (ch.toNat - 48)) else none

/-- Model of Python `int()` on the strings task ids use: an optional minus sign
followed by at least one decimal digit; anything else raises (modelled as
`none`). -/
def parseIntChars : List Char → Option Int
  | [] => none
  | '-' :: rest =>
    if rest.isEmpty then none else (digitsVal rest 0).map (fun n => -(n : Int))
  | cs => (digitsVal cs 0).map (fun n => (n : Int))

/-- `int(task_id.split("/")[1])` from codegen.py line 64: the component after
the first slash, parsed as an integer (`none` models a Python exception for
identifiers without such a component). -/
def taskIdNum (task_id : String) : Option Int :=
  match (splitOnChar '/' task_id.toList).drop 1 with
  | cs :: _ => parseIntChars cs
  | [] => none

/-- The id-range filter (codegen.py lines 63-68): with no range configured every
task is processed; with range (low, high) the task is skipped iff its trailing
integer is < low or >= high. -/
def taskIncluded (id_range : Option (Int × Int)) (task_id : String) : Bool :=
  match id_range with
  | none => true
  | some (low, high) =>
    match taskIdNum task_id with
    | some n => !(decide (n < low) || decide (high ≤ n))
    | none => false

/-- `task["prompt"].strip() + "\n"` (codegen.py line 91): the prompt actually
sent to the model backend each round. -/
def normPrompt (prompt : String) : String := prompt.trim ++ "\n"

/-- `task_id.replace("/", "_")` (codegen.py line 71): the per-task directory
name of the directory layout. -/
def pName (task_id : String) : String := task_id.replace "/" "_"

/-- `solution = prompt + impl if model.is_direct_completion() else impl`
(codegen.py line 99). -/
def solutionOf (direct : Bool) (prompt impl : String) : String :=
  if direct then prompt ++ impl else impl

/-- Starting sample index of a task's generation loop, with Python integer
semantics (codegen.py lines 81-89): `n_more_samples = n_samples`, reduced by
the existing count when resume is on and that count is positive, and
`sidx = n_samples - n_more_samples`. -/
def startIdx (resume : Bool) (n_samples nexist : Nat) : Int :=
  let n_more_samples : Int :=
    if resume ∧ 0 < nexist then (n_samples : Int) - (nexist : Int)
    else (n_samples : Int)
  (n_samples : Int) - n_more_samples

/-- The model backend: `gen` receives the number of backend calls already made
in this run (threading the backend's internal state), the prompt, the
`do_sample` flag and `num_samples`, and returns the completions; `direct` is
`model.is_direct_completion()`. -/
structure Model where
  gen : Nat → String → Bool → Nat → List String
  direct : Bool

/-- A persistence strategy: persists one sample given
(task_id, sidx, solution, sanitized_solution), transforming the writer state. -/
abbrev WriteFn (α : Type) := α → String → Nat → String → String → α

/-- The two sample logs of the `.jsonl` layout as parsed record lists: the
sanitized log at target_path and the raw log at the `.raw.jsonl` path. -/
structure JsonlState where
  sanLog : List LogLine
  rawLog : List LogLine
deriving DecidableEq, Repr

/-- The `.jsonl` writer branch (codegen.py lines 103-118): append one record
with the sanitized solution to the sanitized log, then one with the raw
solution to the raw log. -/
def jsonlW : WriteFn JsonlState := fun st task_id _ solution sanitized =>
  { sanLog := st.sanLog ++ [{ task_id := task_id, solution := sanitized }],
    rawLog := st.rawLog ++ [{ task_id := task_id, solution := solution }] }

/-- The file contents written by the directory-layout branch: (directory name,
index, content) records for the sanitized tree under target_path and for the
raw tree under target_path + ".raw". -/
structure DirState where
  sanFiles : List (String × Nat × String)
  rawFiles : List (String × Nat × String)
deriving DecidableEq, Repr

/-- The directory-layout writer branch (codegen.py lines 119-134): write the
sanitized solution to `<target>/<p_name>/<sidx>.py` and the raw solution to
the mirrored path under the raw root. -/
def dirW : WriteFn DirState := fun st task_id sidx solution sanitized =>
  { sanFiles := st.sanFiles ++ [(pName task_id, sidx, sanitized)],
    rawFiles := st.rawFiles ++ [(pName task_id, sidx, solution)] }

/-- The abstract writer recording each persisted sample with all four fields;
used to state layout-independent properties of the generation loop. -/
def pureW : WriteFn (List Sample) := fun st task_id sidx solution sanitized =>
  st ++ [{ task_id := task_id, sidx := sidx, solution := solution,
           sanitized_solution := sanitized }]

/-- The body of `for impl in outputs` (codegen.py lines 98-135): build the raw
solution, sanitize it, persist both forms via the writer, increment sidx. -/
def writeOuts {α : Type} (w : WriteFn α) (sanitize : String → String → String)
    (direct : Bool) (prompt entry task_id : String) :
    List String → Nat → α → α
  | [], _, st => st
  | impl :: rest, sidx, st =>
    let solution := solutionOf direct prompt impl
    writeOuts w sanitize direct prompt entry task_id rest (sidx + 1)
      (w st task_id sidx solution (sanitize solution entry))

/-- The `while sidx < n_samples` loop of codegen (lines 90-135), generic in the
writer: each round sends the prompt and requests `n_samples - sidx`
completions; an empty return hits `assert outputs` and aborts the run;
otherwise every completion is written and sidx advances by the number
returned.  Besides the final writer state it returns the backend call counter
and the per-round request sizes. -/
def genLoop {α : Type} (w : WriteFn α) (sanitize : String → String → String)
    (model : Model) (greedy : Bool) (prompt entry task_id : String)
    (n_samples sidx k : Nat) (st : α) : Except String (α × Nat × List Nat) :=
  if h : sidx < n_samples then
    let outputs := model.gen k prompt (!greedy) (n_samples - sidx)
    if ho : outputs.length = 0 then .error "No outputs from model!"
    else
      match genLoop w sanitize model greedy prompt entry task_id n_samples
          (sidx + outputs.length) (k + 1)
          (writeOuts w sanitize model.direct prompt entry task_id outputs sidx st) with
      | .error e => .error e
      | .ok (stF, kF, reqs) => .ok (stF, kF, (n_samples - sidx) :: reqs)
  else .ok (st, k, [])
termination_by n_samples - sidx
decreasing_by
  have hl : (model.gen k prompt (!greedy) (n_samples - sidx)).length ≠ 0 := ho
  omega

/-- How a task was reported on the console: skipped by the id-range filter, or
processed (with the resuming-from count when the resume message was printed). -/
inductive TaskReport where
  | skippedRange : TaskReport
  | ran : Option Nat → TaskReport
deriving DecidableEq, Repr

/-- Result of processing one task: its console report, the writer state, the
backend call counter, and the request sizes of its generation rounds. -/
structure RunOut (α : Type) where
  report : TaskReport
  st : α
  k : Nat
  reqs : List Nat

/-- Processing of one task of the dataset loop (codegen.py lines 62-135): the
id-range filter may skip it; otherwise the starting index is derived from the
existing count `nexist` (the scanned `task2nexist.get(task_id, 0)`) and the
while loop runs. -/
def codegenTask {α : Type} (w : WriteFn α) (sanitize : String → String → String)
    (model : Model) (greedy resume : Bool) (n_samples : Nat)
    (id_range : Option (Int × Int)) (nexist : Nat) (task_id : String)
    (task : Task) (k : Nat) (st : α) : Except String (RunOut α) :=
  if taskIncluded id_range task_id then
    let resumedFrom : Option Nat :=
      if resume ∧ 0 < nexist then some nexist else none
    match genLoop w sanitize model greedy (normPrompt task.prompt)
        task.entry_point task_id n_samples (startIdx resume n_samples nexist).toNat
        k st with
    | .error e => .error e
    | .ok (stF, kF, reqs) => .ok ⟨.ran resumedFrom, stF, kF, reqs⟩
  else .ok ⟨.skippedRange, st, k, []⟩

/-- The dataset loop of codegen: `nexistOf` recomputes the existing count of a
task from the current writer state (a constant function for the `.jsonl`
layout, whose scan happens before the loop; the per-task-directory file count
for the directory layout, recomputed inside the loop, codegen.py lines 70-79).
Returns the per-task reports, the final writer state and the call counter. -/
def codegen {α : Type} (w : WriteFn α) (sanitize : String → String → String)
    (model : Model) (greedy resume : Bool) (n_samples : Nat)
    (id_range : Option (Int × Int)) (nexistOf : α → String → Nat) :
    List (String × Task) → Nat → α →
    Except String (List (String × TaskReport) × α × Nat)
  | [], k, st => .ok ([], st, k)
  | (task_id, task) :: rest, k, st =>
    match codegenTask w sanitize model greedy resume n_samples id_range
        (nexistOf st task_id) task_id task k st with
    | .error e => .error e
    | .ok out =>
      match codegen w sanitize model greedy resume n_samples id_range nexistOf
          rest out.k out.st with
      | .error e => .error e
      | .ok (reps, stF, kF) => .ok ((task_id, out.report) :: reps, stF, kF)

/-- The samples one list of completions produces, numbered from sidx: the
reference characterization of `writeOuts` used throughout the proofs. -/
def samplesOf (sanitize : String → String → String) (direct : Bool)
    (prompt entry task_id : String) : List String → Nat → List Sample
  | [], _ => []
  | impl :: rest, sidx =>
    { task_id := task_id, sidx := sidx,
      solution := solutionOf direct prompt impl,
      sanitized_solution := sanitize (solutionOf direct prompt impl) entry }
      :: samplesOf sanitize direct prompt entry task_id rest (sidx + 1)

/-- `len([f for f in os.listdir(target_path/p_name) if f.endswith(".py")])`
(codegen.py lines 73-79): every file this model writes into the sanitized tree
is a .py file, so the count is the number of sanitized records in that
directory. -/
def countFiles (st : DirState) (p : String) : Nat :=
  (st.sanFiles.filter (fun r => r.1 = p)).length

/-- Recovers a task id from its directory name given the dataset's task ids
(the directory layout stores `task_id.replace("/", "_")`, not the id itself). -/
def recoverId (ids : List String) (p : String) : String :=
  (ids.find? (fun t => pName t = p)).getD p

/-- The (task_id, raw text, sanitized text) tuples persisted by the `.jsonl`
layout: the two logs are appended in lockstep, one record each per sample, so
the i-th lines pair up. -/
def JsonlState.tuples (st : JsonlState) : List (String × String × String) :=
  List.zipWith (fun s r => (s.task_id, r.solution, s.solution))
    st.sanLog st.rawLog

/-- The (task id, raw text, sanitized text) tuples persisted by the directory
layout, pairing the i-th sanitized and raw files (written in lockstep) and
recovering the task id from the directory name via the dataset's id list. -/
def DirState.tuples (st : DirState) (ids : List String) :
    List (String × String × String) :=
  List.zipWith (fun s r => (recoverId ids s.1, r.2.2, s.2.2))
    st.sanFiles st.rawFiles

/-- A fresh `.jsonl`-layout run over a dataset: no pre-existing log file, so
`os.path.isfile` is false, the scan is skipped, `task2nexist` stays the empty
dict and every `get` defaults to 0. -/
def runJsonlFresh (sanitize : String → String → String) (model : Model)
    (greedy resume : Bool) (n_samples : Nat) (id_range : Option (Int × Int))
    (dataset : List (String × Task)) :
    Except String (List (String × TaskReport) × JsonlState × Nat) :=
  codegen jsonlW sanitize model greedy resume n_samples id_range
    (fun _ _ => 0) dataset 0 ⟨[], []⟩

/-- A fresh directory-layout run over a dataset: the existing count of each
task is recomputed inside the loop as the .py file count of its directory. -/
def runDirFresh (sanitize : String → String → String) (model : Model)
    (greedy resume : Bool) (n_samples : Nat) (id_range : Option (Int × Int))
    (dataset : List (String × Task)) :
    Except String (List (String × TaskReport) × DirState × Nat) :=
  codegen dirW sanitize model greedy resume n_samples id_range
    (fun st tid => countFiles st (pName tid)) dataset 0 ⟨[], []⟩

/-- A model of the directory tree the directory layout touches: the directories
created so far and the files written, with paths as segment lists. -/
structure DirFS where
  dirs : List (List String)
  files : List (List String × String)
deriving DecidableEq, Repr

/-- The non-empty prefixes of a path: the chain of directories `os.makedirs`
creates. -/
def pathChain : List String → List (List String)
  | [] => []
  | seg :: rest => [seg] :: (pathChain rest).map (fun p => seg :: p)

/-- `os.makedirs(path, exist_ok=True)`: creates the directory and all its
ancestors; repetition is harmless in this membership-based model. -/
def makedirs (fs : DirFS) (path : List String) : DirFS :=
  { fs with dirs := fs.dirs ++ pathChain path }

/-- `open(path, "w")` followed by a write: Python raises FileNotFoundError when
the parent directory of the path does not exist (the root parent `[]` always
exists). -/
def openWrite (fs : DirFS) (path : List String) (content : String) :
    Except String DirFS :=
  if path.dropLast = [] ∨ path.dropLast ∈ fs.dirs then
    .ok { fs with files := fs.files ++ [(path, content)] }
  else .error "FileNotFoundError"

/-- `raw_target_path = target_path + ".raw"` for the directory layout
(codegen.py line 40). -/
def rawTargetPath (target_path : String) : String := target_path ++ ".raw"

/-- All directory creation the directory layout performs before writing a
task's samples: `os.makedirs(target_path, exist_ok=True)` (line 41) and
`os.makedirs(os.path.join(target_path, p_name), exist_ok=True)` (line 72).
No directory under the raw root is ever created. -/
def dirLayoutSetup (target_path p_name : String) (fs : DirFS) : DirFS :=
  makedirs (makedirs fs [target_path]) [target_path, p_name]

/-- `f"{sidx}.py"`: the sample file name of the directory layout. -/
def sampleFileName (sidx : Nat) : String := toString sidx ++ ".py"

/-- The two file writes of the directory-layout branch for one sample
(codegen.py lines 119-134): first the sanitized text to
`<target>/<p_name>/<sidx>.py`, then the raw text to the mirrored path under
the raw root. -/
def writeDirSample (target_path p_name : String) (sidx : Nat)
    (solution sanitized : String) (fs : DirFS) : Except String DirFS :=
  match openWrite fs [target_path, p_name, sampleFileName sidx] sanitized with
  | .error e => .error e
  | .ok fs1 =>
    openWrite fs1 [rawTargetPath target_path, p_name, sampleFileName sidx]
      solution

/-- The sampling arguments of run_codegen that the greedy branch rewrites:
temperature (a float in the source, modelled as a rational), batch size (with
None allowed, the default) and n_samples. -/
structure RunArgs where
  temperature : Rat
  bs : Option Nat
  n_samples : Nat
deriving DecidableEq, Repr

/-- The greedy override of run_codegen (codegen.py lines 164-168): when greedy
is set and any of temperature != 0, bs != 1, n_samples != 1 hold (None != 1 is
true in Python), all three are reset to 0, 1 and 1. -/
def applyGreedy (greedy : Bool) (a : RunArgs) : RunArgs :=
  if greedy ∧ (a.temperature ≠ 0 ∨ a.bs ≠ some 1 ∨ a.n_samples ≠ 1) then
    { temperature := 0, bs := some 1, n_samples := 1 }
  else a

/-- `bs = min(n_samples, 32)` when bs is None (codegen.py lines 175-177). -/
def resolveBs (a : RunArgs) : Nat :=
  match a.bs with
  | none => min a.n_samples 32
  | some b => b

/-- A backend honoring the model contract: a positive request returns at least
one and at most the requested number of completions. -/
def GoodBackend (m : Model) : Prop :=
  ∀ k p ds n, 0 < n →
    (m.gen k p ds n).length ≠ 0 ∧ (m.gen k p ds n).length ≤ n

/-- The request sizes n, n-1, ..., 1: what a loop that requests the full
remaining deficit each round issues against a backend returning exactly one
completion per call. -/
def countdown : Nat → List Nat
  | 0 => []
  | n + 1 => (n + 1) :: countdown n

/-! Helper lemmas. -/

theorem take_range'_of_le : ∀ (j s n : Nat), j ≤ n →
    (List.range' s n).take j = List.range' s j := by
  intro j
  induction j with
  | zero => intro s n h; simp
  | succ j ih =>
    intro s n h
    match n, h with
    | m + 1, h =>
      rw [List.range'_succ s m 1, List.range'_succ s j 1]
      simp only [List.take_succ_cons]
      rw [ih (s + 1) m (by omega)]

theorem range_append_range' (a b : Nat) :
    List.range a ++ List.range' a b = List.range (a + b) := by
  rw [List.range_eq_range', List.range_eq_range', Nat.add_comm a b]
  simpa using List.range'_append 0 a b 1

theorem samplesOf_length (sanitize : String → String → String) (direct : Bool)
    (prompt entry task_id : String) :
    ∀ (impls : List String) (sidx : Nat),
    (samplesOf sanitize direct prompt entry task_id impls sidx).length =
      impls.length := by
  intro impls
  induction impls with
  | nil => intro sidx; rfl
  | cons i rest ih => intro sidx; simp [samplesOf, ih]

theorem samplesOf_map_sidx (sanitize : String → String → String) (direct : Bool)
    (prompt entry task_id : String) :
    ∀ (impls : List String) (sidx : Nat),
    (samplesOf sanitize direct prompt entry task_id impls sidx).map
        (fun s => s.sidx) = List.range' sidx impls.length := by
  intro impls
  induction impls with
  | nil => intro sidx; rfl
  | cons i rest ih =>
    intro sidx
    simp only [samplesOf, List.map_cons, List.length_cons, ih,
      List.range'_succ sidx rest.length 1]

theorem samplesOf_mem (sanitize : String → String → String) (direct : Bool)
    (prompt entry task_id : String) :
    ∀ (impls : List String) (sidx : Nat) (s : Sample),
    s ∈ samplesOf sanitize direct prompt entry task_id impls sidx →
    s.task_id = task_id ∧
    s.sanitized_solution = sanitize s.solution entry ∧
    ∃ impl, impl ∈ impls ∧ s.solution = solutionOf direct prompt impl := by
  intro impls
  induction impls with
  | nil => intro sidx s h; simp [samplesOf] at h
  | cons i rest ih =>
    intro sidx s h
    simp only [samplesOf, List.mem_cons] at h
    rcases h with h | h
    · subst h
      refine ⟨rfl, rfl, i, by simp, rfl⟩
    · obtain ⟨h1, h2, impl, hm, h3⟩ := ih (sidx + 1) s h
      exact ⟨h1, h2, impl, by simp [hm], h3⟩

theorem samplesOf_append (sanitize : String → String → String) (direct : Bool)
    (prompt entry task_id : String) :
    ∀ (a b : List String) (sidx : Nat),
    samplesOf sanitize direct prompt entry task_id (a ++ b) sidx =
      samplesOf sanitize direct prompt entry task_id a sidx ++
      samplesOf sanitize direct prompt entry task_id b (sidx + a.length) := by
  intro a
  induction a with
  | nil => intro b sidx; simp [samplesOf]
  | cons i rest ih =>
    intro b sidx
    simp only [List.cons_append, samplesOf, List.length_cons, List.append_eq]
    rw [ih]
    have h2 : sidx + 1 + rest.length = sidx + (rest.length + 1) := by omega
    rw [h2]

theorem writeOuts_append {α : Type} (w : WriteFn α)
    (sanitize : String → String → String) (direct : Bool)
    (prompt entry task_id : String) :
    ∀ (a b : List String) (sidx : Nat) (st : α),
    writeOuts w sanitize direct prompt entry task_id (a ++ b) sidx st =
      writeOuts w sanitize direct prompt entry task_id b (sidx + a.length)
        (writeOuts w sanitize direct prompt entry task_id a sidx st) := by
  intro a
  induction a with
  | nil => intro b sidx st; simp [writeOuts]
  | cons i rest ih =>
    intro b sidx st
    simp only [List.cons_append, writeOuts, List.length_cons, List.append_eq]
    rw [ih]
    have h2 : sidx + 1 + rest.length = sidx + (rest.length + 1) := by omega
    rw [h2]

theorem writeOuts_pureW (sanitize : String → String → String) (direct : Bool)
    (prompt entry task_id : String) :
    ∀ (impls : List String) (sidx : Nat) (st : List Sample),
    writeOuts pureW sanitize direct prompt entry task_id impls sidx st =
      st ++ samplesOf sanitize direct prompt entry task_id impls sidx := by
  intro impls
  induction impls with
  | nil => intro sidx st; simp [writeOuts, samplesOf]
  | cons i rest ih =>
    intro sidx st
    simp [writeOuts, samplesOf, ih, pureW]

theorem writeOuts_jsonlW (sanitize : String → String → String) (direct : Bool)
    (prompt entry task_id : String) :
    ∀ (impls : List String) (sidx : Nat) (st : JsonlState),
    writeOuts jsonlW sanitize direct prompt entry task_id impls sidx st =
      { sanLog := st.sanLog ++
          (samplesOf sanitize direct prompt entry task_id impls sidx).map
            (fun s => { task_id := s.task_id, solution := s.sanitized_solution }),
        rawLog := st.rawLog ++
          (samplesOf sanitize direct prompt entry task_id impls sidx).map
            (fun s => { task_id := s.task_id, solution := s.solution }) } := by
  intro impls
  induction impls with
  | nil => intro sidx st; simp [writeOuts, samplesOf]
  | cons i rest ih =>
    intro sidx st
    simp [writeOuts, samplesOf, ih, jsonlW]

theorem writeOuts_dirW (sanitize : String → String → String) (direct : Bool)
    (prompt entry task_id : String) :
    ∀ (impls : List String) (sidx : Nat) (st : DirState),
    writeOuts dirW sanitize direct prompt entry task_id impls sidx st =
      { sanFiles := st.sanFiles ++
          (samplesOf sanitize direct prompt entry task_id impls sidx).map
            (fun s => (pName s.task_id, s.sidx, s.sanitized_solution)),
        rawFiles := st.rawFiles ++
          (samplesOf sanitize direct prompt entry task_id impls sidx).map
            (fun s => (pName s.task_id, s.sidx, s.solution)) } := by
  intro impls
  induction impls with
  | nil => intro sidx st; simp [writeOuts, samplesOf]
  | cons i rest ih =>
    intro sidx st
    simp [writeOuts, samplesOf, ih, dirW]

theorem startIdx_toNat (resume : Bool) (n_samples nexist : Nat) :
    (startIdx resume n_samples nexist).toNat =
      if resume ∧ 0 < nexist then nexist else 0 := by
  simp only [startIdx]
  by_cases h : resume ∧ 0 < nexist
  · rw [if_pos h, if_pos h]
    omega
  · rw [if_neg h, if_neg h]
    omega

theorem genLoop_stop {α : Type} (w : WriteFn α)
    (sanitize : String → String → String) (model : Model) (greedy : Bool)
    (prompt entry task_id : String) (n_samples sidx k : Nat) (st : α)
    (h : n_samples ≤ sidx) :
    genLoop w sanitize model greedy prompt entry task_id n_samples sidx k st =
      .ok (st, k, []) := by
  rw [genLoop.eq_def, dif_neg (by omega : ¬ sidx < n_samples)]

theorem genLoop_empty {α : Type} (w : WriteFn α)
    (sanitize : String → String → String) (model : Model) (greedy : Bool)
    (prompt entry task_id : String) (n_samples sidx k : Nat) (st : α)
    (hs : sidx < n_samples)
    (ho : (model.gen k prompt (!greedy) (n_samples - sidx)).length = 0) :
    genLoop w sanitize model greedy prompt entry task_id n_samples sidx k st =
      .error "No outputs from model!" := by
  rw [genLoop.eq_def, dif_pos hs]
  simp [ho]

theorem genLoop_step {α : Type} (w : WriteFn α)
    (sanitize : String → String → String) (model : Model) (greedy : Bool)
    (prompt entry task_id : String) (n_samples sidx k : Nat) (st : α)
    (hs : sidx < n_samples)
    (ho : (model.gen k prompt (!greedy) (n_samples - sidx)).length ≠ 0) :
    genLoop w sanitize model greedy prompt entry task_id n_samples sidx k st =
      match genLoop w sanitize model greedy prompt entry task_id n_samples
          (sidx + (model.gen k prompt (!greedy) (n_samples - sidx)).length)
          (k + 1)
          (writeOuts w sanitize model.direct prompt entry task_id
            (model.gen k prompt (!greedy) (n_samples - sidx)) sidx st) with
      | .error e => .error e
      | .ok (stF, kF, reqs) => .ok (stF, kF, (n_samples - sidx) :: reqs) := by
  conv_lhs => rw [genLoop.eq_def]
  rw [dif_pos hs]
  simp only [dif_neg ho]

theorem genLoop_spec {α : Type} (w : WriteFn α)
    (sanitize : String → String → String) (model : Model) (greedy : Bool)
    (prompt entry task_id : String) (n_samples : Nat)
    (hg : GoodBackend model) :
    ∀ (fuel sidx k : Nat) (st : α), n_samples - sidx ≤ fuel →
    sidx ≤ n_samples →
    ∃ impls kF reqs, impls.length = n_samples - sidx ∧
      genLoop w sanitize model greedy prompt entry task_id n_samples sidx k st =
        .ok (writeOuts w sanitize model.direct prompt entry task_id impls sidx st,
          kF, reqs) := by
  intro fuel
  induction fuel with
  | zero =>
    intro sidx k st hf hle
    refine ⟨[], k, [], by simp; omega, ?_⟩
    rw [genLoop_stop w sanitize model greedy prompt entry task_id n_samples sidx
      k st (by omega)]
    rfl
  | succ fuel ih =>
    intro sidx k st hf hle
    by_cases hs : sidx < n_samples
    · obtain ⟨hne, hlen⟩ := hg k prompt (!greedy) (n_samples - sidx) (by omega)
      obtain ⟨impls, kF, reqs, hlen2, heq⟩ :=
        ih (sidx + (model.gen k prompt (!greedy) (n_samples - sidx)).length)
          (k + 1)
          (writeOuts w sanitize model.direct prompt entry task_id
            (model.gen k prompt (!greedy) (n_samples - sidx)) sidx st)
          (by omega) (by omega)
      refine ⟨model.gen k prompt (!greedy) (n_samples - sidx) ++ impls, kF,
        (n_samples - sidx) :: reqs, ?_, ?_⟩
      · simp only [List.length_append, hlen2]
        omega
      · rw [genLoop_step w sanitize model greedy prompt entry task_id n_samples
          sidx k st hs hne, heq, writeOuts_append]
    · refine ⟨[], k, [], by simp; omega, ?_⟩
      rw [genLoop_stop w sanitize model greedy prompt entry task_id n_samples
        sidx k st (by omega)]
      rfl

theorem genLoop_pair {α β : Type} (w1 : WriteFn α) (w2 : WriteFn β)
    (sanitize : String → String → String) (model : Model) (greedy : Bool)
    (prompt entry task_id : String) (n_samples : Nat) :
    ∀ (fuel sidx k : Nat) (st1 : α) (st2 : β), n_samples - sidx ≤ fuel →
    (∃ e,
      genLoop w1 sanitize model greedy prompt entry task_id n_samples sidx k st1
        = .error e ∧
      genLoop w2 sanitize model greedy prompt entry task_id n_samples sidx k st2
        = .error e) ∨
    (∃ impls kF reqs,
      genLoop w1 sanitize model greedy prompt entry task_id n_samples sidx k st1
        = .ok (writeOuts w1 sanitize model.direct prompt entry task_id impls
            sidx st1, kF, reqs) ∧
      genLoop w2 sanitize model greedy prompt entry task_id n_samples sidx k st2
        = .ok (writeOuts w2 sanitize model.direct prompt entry task_id impls
            sidx st2, kF, reqs)) := by
  intro fuel
  induction fuel with
  | zero =>
    intro sidx k st1 st2 hf
    right
    refine ⟨[], k, [], ?_, ?_⟩ <;>
      (rw [genLoop_stop _ sanitize model greedy prompt entry task_id n_samples
        sidx k _ (by omega)]; rfl)
  | succ fuel ih =>
    intro sidx k st1 st2 hf
    by_cases hs : sidx < n_samples
    · by_cases ho : (model.gen k prompt (!greedy) (n_samples - sidx)).length = 0
      · left
        exact ⟨"No outputs from model!",
          genLoop_empty w1 sanitize model greedy prompt entry task_id n_samples
            sidx k st1 hs ho,
          genLoop_empty w2 sanitize model greedy prompt entry task_id n_samples
            sidx k st2 hs ho⟩
      · rcases ih (sidx + (model.gen k prompt (!greedy) (n_samples - sidx)).length)
          (k + 1)
          (writeOuts w1 sanitize model.direct prompt entry task_id
            (model.gen k prompt (!greedy) (n_samples - sidx)) sidx st1)
          (writeOuts w2 sanitize model.direct prompt entry task_id
            (model.gen k prompt (!greedy) (n_samples - sidx)) sidx st2)
          (by omega) with hrec | hrec
        · obtain ⟨e, he1, he2⟩ := hrec
          left
          refine ⟨e, ?_, ?_⟩
          · rw [genLoop_step w1 sanitize model greedy prompt entry task_id
              n_samples sidx k st1 hs ho, he1]
          · rw [genLoop_step w2 sanitize model greedy prompt entry task_id
              n_samples sidx k st2 hs ho, he2]
        · obtain ⟨impls, kF, reqs, he1, he2⟩ := hrec
          right
          refine ⟨model.gen k prompt (!greedy) (n_samples - sidx) ++ impls, kF,
            (n_samples - sidx) :: reqs, ?_, ?_⟩
          · rw [genLoop_step w1 sanitize model greedy prompt entry task_id
              n_samples sidx k st1 hs ho, he1, writeOuts_append]
          · rw [genLoop_step w2 sanitize model greedy prompt entry task_id
              n_samples sidx k st2 hs ho, he2, writeOuts_append]
    · right
      refine ⟨[], k, [], ?_, ?_⟩ <;>
        (rw [genLoop_stop _ sanitize model greedy prompt entry task_id n_samples
          sidx k _ (by omega)]; rfl)

theorem genLoop_one {α : Type} (w : WriteFn α)
    (sanitize : String → String → String) (greedy direct : Bool)
    (prompt entry task_id c : String) (n_samples : Nat) :
    ∀ (fuel sidx k : Nat) (st : α), n_samples - sidx ≤ fuel →
    genLoop w sanitize ⟨fun _ _ _ _ => [c], direct⟩ greedy prompt entry task_id
        n_samples sidx k st =
      .ok (writeOuts w sanitize direct prompt entry task_id
          (List.replicate (n_samples - sidx) c) sidx st,
        k + (n_samples - sidx), countdown (n_samples - sidx)) := by
  intro fuel
  induction fuel with
  | zero =>
    intro sidx k st hf
    have h0 : n_samples - sidx = 0 := by omega
    rw [genLoop_stop _ sanitize _ greedy prompt entry task_id n_samples sidx k
      st (by omega), h0]
    rfl
  | succ fuel ih =>
    intro sidx k st hf
    by_cases hs : sidx < n_samples
    · rw [genLoop_step w sanitize ⟨fun _ _ _ _ => [c], direct⟩ greedy prompt
        entry task_id n_samples sidx k st hs (by simp)]
      simp only [List.length_cons, List.length_nil, Nat.zero_add]
      rw [ih (sidx + 1) (k + 1) _ (by omega)]
      have hm : n_samples - sidx = (n_samples - (sidx + 1)) + 1 := by omega
      rw [hm]
      simp only [countdown, List.replicate_succ, writeOuts]
      have hk : k + 1 + (n_samples - (sidx + 1)) =
          k + (n_samples - (sidx + 1) + 1) := by omega
      rw [hk]
    · have h0 : n_samples - sidx = 0 := by omega
      rw [genLoop_stop _ sanitize _ greedy prompt entry task_id n_samples sidx k
        st (by omega), h0]
      rfl

theorem codegenTask_pair {α β : Type} (w1 : WriteFn α) (w2 : WriteFn β)
    (sanitize : String → String → String) (model : Model)
    (greedy resume : Bool) (n_samples : Nat) (id_range : Option (Int × Int))
    (nexist : Nat) (task_id : String) (task : Task) (k : Nat)
    (st1 : α) (st2 : β) :
    (∃ e,
      codegenTask w1 sanitize model greedy resume n_samples id_range nexist
        task_id task k st1 = .error e ∧
      codegenTask w2 sanitize model greedy resume n_samples id_range nexist
        task_id task k st2 = .error e) ∨
    (∃ rep impls kF reqs,
      codegenTask w1 sanitize model greedy resume n_samples id_range nexist
          task_id task k st1 =
        .ok ⟨rep, writeOuts w1 sanitize model.direct (normPrompt task.prompt)
          task.entry_point task_id impls (startIdx resume n_samples nexist).toNat
          st1, kF, reqs⟩ ∧
      codegenTask w2 sanitize model greedy resume n_samples id_range nexist
          task_id task k st2 =
        .ok ⟨rep, writeOuts w2 sanitize model.direct (normPrompt task.prompt)
          task.entry_point task_id impls (startIdx resume n_samples nexist).toNat
          st2, kF, reqs⟩) := by
  by_cases hin : taskIncluded id_range task_id = true
  · rcases genLoop_pair w1 w2 sanitize model greedy (normPrompt task.prompt)
      task.entry_point task_id n_samples n_samples
      (startIdx resume n_samples nexist).toNat k st1 st2 (by omega) with
      ⟨e, he1, he2⟩ | ⟨impls, kF, reqs, he1, he2⟩
    · left
      refine ⟨e, ?_, ?_⟩
      · simp only [codegenTask, hin, if_true]
        rw [he1]
      · simp only [codegenTask, hin, if_true]
        rw [he2]
    · right
      refine ⟨.ran (if resume ∧ 0 < nexist then some nexist else none),
        impls, kF, reqs, ?_, ?_⟩
      · simp only [codegenTask, hin, if_true]
        rw [he1]
      · simp only [codegenTask, hin, if_true]
        rw [he2]
  · right
    refine ⟨.skippedRange, [], k, [], ?_, ?_⟩ <;>
      (simp only [codegenTask, hin]; rfl)

theorem codegenTask_ok_inv {α : Type} (w : WriteFn α)
    (sanitize : String → String → String) (model : Model)
    (greedy resume : Bool) (n_samples : Nat) (id_range : Option (Int × Int))
    (nexist : Nat) (task_id : String) (task : Task) (k : Nat) (st : α)
    (out : RunOut α)
    (hok : codegenTask w sanitize model greedy resume n_samples id_range nexist
      task_id task k st = .ok out) :
    ∃ impls, out.st = writeOuts w sanitize model.direct (normPrompt task.prompt)
      task.entry_point task_id impls (startIdx resume n_samples nexist).toNat
      st := by
  rcases codegenTask_pair w w sanitize model greedy resume n_samples id_range
    nexist task_id task k st st with ⟨e, he, _⟩ | ⟨rep, impls, kF, reqs, h1, _⟩
  · rw [hok] at he
    cases he
  · rw [hok] at h1
    refine ⟨impls, ?_⟩
    have h2 : out = ⟨rep, writeOuts w sanitize model.direct
        (normPrompt task.prompt) task.entry_point task_id impls
        (startIdx resume n_samples nexist).toNat st, kF, reqs⟩ :=
      Except.ok.inj h1
    rw [h2]

/-! Claim theorems. -/

/-- C5 (Zero-deficit skip): with resume enabled, a task whose existing sample
count is at least the requested target runs no generation round: the backend is
never called (the call counter is unchanged, the request trace is empty), the
writer state is unchanged in any layout, and the task is reported as processed
(with the resuming-from count announced whenever the count is positive), not as
an error. -/
theorem zero_deficit_skip {α : Type} (w : WriteFn α)
    (sanitize : String → String → String) (model : Model) (greedy : Bool)
    (n_samples : Nat) (id_range : Option (Int × Int)) (nexist : Nat)
    (task_id : String) (task : Task) (k : Nat) (st : α)
    (hin : taskIncluded id_range task_id = true) (hge : n_samples ≤ nexist) :
    codegenTask w sanitize model greedy true n_samples id_range nexist task_id
        task k st =
      .ok ⟨.ran (if 0 < nexist then some nexist else none), st, k, []⟩ := by
  have hstop : n_samples ≤ (startIdx true n_samples nexist).toNat := by
    rw [startIdx_toNat]
    simp only [true_and]
    split_ifs <;> omega
  simp only [codegenTask, hin, if_true]
  rw [genLoop_stop w sanitize model greedy (normPrompt task.prompt)
    task.entry_point task_id n_samples _ k st hstop]
  simp only [true_and]

/-- C5 witness: a task with 5 existing samples and target 2 is skipped: the
state and the call counter are unchanged, the request trace is empty, and the
report announces resuming from 5 (the backend here would even misbehave if it
were consulted, showing no backend call occurs). -/
theorem zero_deficit_skip_witness :
    taskIncluded none "t/0" = true ∧ 2 ≤ 5 ∧
    codegenTask pureW (fun s _ => s) ⟨fun _ _ _ _ => [], true⟩ false true 2 none
        5 "t/0" ⟨"p", "e"⟩ 0 [] =
      .ok ⟨.ran (if 0 < 5 then some 5 else none), [], 0, []⟩ :=
  ⟨rfl, by omega,
    zero_deficit_skip pureW (fun s _ => s) ⟨fun _ _ _ _ => [], true⟩ false 2
      none 5 "t/0" ⟨"p", "e"⟩ 0 [] rfl (by omega)⟩

/-- C6 (Task range filtering): with no range configured every task is included;
with a configured half-open range (low, high), a task whose identifier has
trailing integer n is included iff low ≤ n and n < high (so n = low and
n = high - 1 are included and n = high is excluded); and a task excluded by the
filter is observably reported as skipped, with no writes, no backend call and
no generation round. -/
theorem task_range_filter :
    (∀ task_id, taskIncluded none task_id = true) ∧
    (∀ (low high n : Int) (task_id : String), taskIdNum task_id = some n →
      (taskIncluded (some (low, high)) task_id = true ↔ low ≤ n ∧ n < high)) ∧
    (∀ (α : Type) (w : WriteFn α) (sanitize : String → String → String)
      (model : Model) (greedy resume : Bool) (n_samples : Nat)
      (id_range : Option (Int × Int)) (nexist : Nat) (task_id : String)
      (task : Task) (k : Nat) (st : α),
      taskIncluded id_range task_id = false →
      codegenTask w sanitize model greedy resume n_samples id_range nexist
        task_id task k st = .ok ⟨.skippedRange, st, k, []⟩) := by
  refine ⟨fun task_id => rfl, ?_, ?_⟩
  · intro low high n task_id hnum
    simp only [taskIncluded, hnum]
    simp only [Bool.not_eq_true', Bool.or_eq_false_iff, decide_eq_false_iff_not,
      not_lt, not_le]
  · intro α w sanitize model greedy resume n_samples id_range nexist task_id
      task k st h
    simp only [codegenTask, h]
    rfl

/-- C6 witness: under range [0, 3) the task "x/0" (the low bound) and "x/2"
(high - 1) are included, "x/3" (the high bound) is excluded, and processing the
excluded "x/3" reports it as skipped with nothing written. -/
theorem task_range_filter_witness :
    (taskIncluded (some ((0 : Int), (3 : Int))) "x/0" = true ↔
      (0 : Int) ≤ 0 ∧ (0 : Int) < 3) ∧
    (taskIncluded (some ((0 : Int), (3 : Int))) "x/2" = true ↔
      (0 : Int) ≤ 2 ∧ (2 : Int) < 3) ∧
    (taskIncluded (some ((0 : Int), (3 : Int))) "x/3" = true ↔
      (0 : Int) ≤ 3 ∧ (3 : Int) < 3) ∧
    codegenTask pureW (fun s _ => s) ⟨fun _ _ _ _ => ["c"], true⟩ false true 1
        (some ((0 : Int), (3 : Int))) 0 "x/3" ⟨"p", "e"⟩ 0 [] =
      .ok ⟨.skippedRange, [], 0, []⟩ :=
  ⟨task_range_filter.2.1 0 3 0 "x/0" (by decide),
    task_range_filter.2.1 0 3 2 "x/2" (by decide),
    task_range_filter.2.1 0 3 3 "x/3" (by decide),
    task_range_filter.2.2 (List Sample) pureW (fun s _ => s)
      ⟨fun _ _ _ _ => ["c"], true⟩ false true 1 (some (0, 3)) 0 "x/3"
      ⟨"p", "e"⟩ 0 [] (by decide)⟩

/-- C9 (greedy override in run_codegen): whenever greedy is set and any of
temperature != 0, bs != 1, n_samples != 1 hold, all three arguments are
overridden to 0, 1 and 1 before generation; consequently a greedy run always
proceeds with temperature 0, batch size 1 and exactly one sample per task,
whatever n_samples was passed in. -/
theorem greedy_override (a : RunArgs) :
    (applyGreedy true a).temperature = 0 ∧
    (applyGreedy true a).n_samples = 1 ∧
    resolveBs (applyGreedy true a) = 1 ∧
    ((a.temperature ≠ 0 ∨ a.bs ≠ some 1 ∨ a.n_samples ≠ 1) →
      applyGreedy true a = ⟨0, some 1, 1⟩) := by
  unfold applyGreedy
  by_cases h : a.temperature ≠ 0 ∨ a.bs ≠ some 1 ∨ a.n_samples ≠ 1
  · rw [if_pos ⟨rfl, h⟩]
    exact ⟨rfl, rfl, rfl, fun _ => rfl⟩
  · rw [if_neg (fun hc => h hc.2)]
    push_neg at h
    obtain ⟨h1, h2, h3⟩ := h
    refine ⟨h1, h3, ?_, fun hc => absurd hc (by simp [h1, h2, h3])⟩
    simp [resolveBs, h2]

/-- C9 witness: a greedy call with temperature 1, unset batch size and
n_samples = 200 is overridden to temperature 0, batch size 1 and a single
sample per task. -/
theorem greedy_override_witness :
    (applyGreedy true ⟨1, none, 200⟩).temperature = 0 ∧
    (applyGreedy true ⟨1, none, 200⟩).n_samples = 1 ∧
    resolveBs (applyGreedy true ⟨1, none, 200⟩) = 1 ∧
    applyGreedy true ⟨1, none, 200⟩ = ⟨0, some 1, 1⟩ :=
  ⟨(greedy_override ⟨1, none, 200⟩).1, (greedy_override ⟨1, none, 200⟩).2.1,
    (greedy_override ⟨1, none, 200⟩).2.2.1,
    (greedy_override ⟨1, none, 200⟩).2.2.2 (by norm_num)⟩

/-- C1 (Resume idempotence): for a task included in the run, with resume
enabled, an existing count K < N from the resume scan and a backend honoring
the model contract, the run starts exactly at index K (the count of existing
samples), writes the sample indices K..N-1 in order, and together with the
pre-existing indices 0..K-1 this yields exactly the indices 0..N-1, with no
duplicate and no gap; moreover any prefix of the new writes (an interrupted
run) again leaves a contiguous range 0..K+j-1, so the invariant is preserved
across arbitrarily many interruptions and resumptions. -/
theorem resume_idempotence (sanitize : String → String → String) (model : Model)
    (greedy : Bool) (n_samples K : Nat) (id_range : Option (Int × Int))
    (task_id : String) (task : Task) (k : Nat)
    (hg : GoodBackend model) (hin : taskIncluded id_range task_id = true)
    (hK : K < n_samples) :
    ∃ out : RunOut (List Sample),
      codegenTask pureW sanitize model greedy true n_samples id_range K task_id
        task k [] = .ok out ∧
      out.st.map (fun s => s.sidx) = List.range' K (n_samples - K) ∧
      List.range K ++ out.st.map (fun s => s.sidx) = List.range n_samples ∧
      (List.range n_samples).Nodup ∧
      (∀ j, j ≤ n_samples - K →
        List.range K ++ (out.st.map (fun s => s.sidx)).take j =
          List.range (K + j)) := by
  have hsidx : (startIdx true n_samples K).toNat = K := by
    rw [startIdx_toNat]
    simp only [true_and]
    split_ifs <;> omega
  obtain ⟨impls, kF, reqs, hlen, heq⟩ :=
    genLoop_spec pureW sanitize model greedy (normPrompt task.prompt)
      task.entry_point task_id n_samples hg n_samples K k [] (by omega)
      (by omega)
  have hmap : (samplesOf sanitize model.direct (normPrompt task.prompt)
      task.entry_point task_id impls K).map (fun s => s.sidx) =
      List.range' K (n_samples - K) := by
    rw [samplesOf_map_sidx, hlen]
  refine ⟨⟨.ran (if 0 < K then some K else none),
    samplesOf sanitize model.direct (normPrompt task.prompt) task.entry_point
      task_id impls K, kF, reqs⟩, ?_, ?_, ?_, ?_, ?_⟩
  · simp only [codegenTask, hin, if_true, hsidx, eq_self_iff_true, true_and]
    rw [heq, writeOuts_pureW]
    simp
  · exact hmap
  · rw [hmap, range_append_range']
    congr 1
    omega
  · exact List.nodup_range n_samples
  · intro j hj
    rw [hmap, take_range'_of_le j K (n_samples - K) hj, range_append_range']

/-- C1 witness: target 3, one existing sample, a backend returning at most two
completions per call: the resumed run writes exactly the indices 1 and 2, and
with the pre-existing index 0 the persisted indices are exactly 0, 1, 2. -/
theorem resume_idempotence_witness :
    GoodBackend ⟨fun _ _ _ n => List.replicate (min n 2) "c", true⟩ ∧
    taskIncluded none "t/0" = true ∧ 1 < 3 ∧
    ∃ out : RunOut (List Sample),
      codegenTask pureW (fun s _ => s)
        ⟨fun _ _ _ n => List.replicate (min n 2) "c", true⟩ false true 3 none 1
        "t/0" ⟨"p", "e"⟩ 0 [] = .ok out ∧
      out.st.map (fun s => s.sidx) = List.range' 1 (3 - 1) ∧
      List.range 1 ++ out.st.map (fun s => s.sidx) = List.range 3 ∧
      (List.range 3).Nodup ∧
      (∀ j, j ≤ 3 - 1 →
        List.range 1 ++ (out.st.map (fun s => s.sidx)).take j =
          List.range (1 + j)) := by
  have hg : GoodBackend ⟨fun _ _ _ n => List.replicate (min n 2) "c", true⟩ := by
    intro k p ds n hn
    refine ⟨?_, ?_⟩ <;> simp <;> omega
  exact ⟨hg, rfl, by omega,
    resume_idempotence (fun s _ => s) _ false 3 1 none "t/0" ⟨"p", "e"⟩ 0 hg rfl
      (by omega)⟩

/-- C4 (Scheduler rounds): the generation loop (1) under any backend honoring
the contract keeps calling until exactly N - E further samples have been
written, never assuming one call returns the full request; (2) against a
backend returning a single completion per call it runs N - E rounds whose
request sizes are N-E, N-E-1, ..., 1 — each round requesting exactly N minus
the current write index; and (3) a round in which the backend returns zero
outputs for a non-empty request aborts the run with the assertion message. -/
theorem scheduler_rounds (sanitize : String → String → String) (greedy : Bool)
    (prompt entry task_id : String) (n_samples E k : Nat) :
    (∀ (α : Type) (w : WriteFn α) (st : α) (model : Model),
      GoodBackend model → E ≤ n_samples →
      ∃ impls kF reqs, impls.length = n_samples - E ∧
        genLoop w sanitize model greedy prompt entry task_id n_samples E k st =
          .ok (writeOuts w sanitize model.direct prompt entry task_id impls E st,
            kF, reqs)) ∧
    (∀ (α : Type) (w : WriteFn α) (st : α) (direct : Bool) (c : String),
      genLoop w sanitize ⟨fun _ _ _ _ => [c], direct⟩ greedy prompt entry task_id
          n_samples E k st =
        .ok (writeOuts w sanitize direct prompt entry task_id
            (List.replicate (n_samples - E) c) E st,
          k + (n_samples - E), countdown (n_samples - E))) ∧
    (∀ (α : Type) (w : WriteFn α) (st : α) (model : Model), E < n_samples →
      (model.gen k prompt (!greedy) (n_samples - E)).length = 0 →
      genLoop w sanitize model greedy prompt entry task_id n_samples E k st =
        .error "No outputs from model!") := by
  refine ⟨?_, ?_, ?_⟩
  · intro α w st model hg hle
    exact genLoop_spec w sanitize model greedy prompt entry task_id n_samples
      hg n_samples E k st (by omega) hle
  · intro α w st direct c
    exact genLoop_one w sanitize greedy direct prompt entry task_id c n_samples
      n_samples E k st (by omega)
  · intro α w st model hlt ho
    exact genLoop_empty w sanitize model greedy prompt entry task_id n_samples
      E k st hlt ho

/-- C4 witness: with target 3 from index 1, a two-per-call backend satisfies
the contract and the loop completes; a one-per-call backend yields the request
trace [2, 1]; and a backend returning nothing makes the loop abort with the
assertion message. -/
theorem scheduler_rounds_witness :
    GoodBackend ⟨fun _ _ _ n => List.replicate (min n 2) "c", true⟩ ∧ 1 ≤ 3 ∧
    (∃ impls kF reqs, impls.length = 3 - 1 ∧
      genLoop pureW (fun s _ => s)
          ⟨fun _ _ _ n => List.replicate (min n 2) "c", true⟩ false "p" "e" "t"
          3 1 0 [] =
        .ok (writeOuts pureW (fun s _ => s) true "p" "e" "t" impls 1 [],
          kF, reqs)) ∧
    genLoop pureW (fun s _ => s) ⟨fun _ _ _ _ => ["c"], true⟩ false "p" "e" "t"
        3 1 0 [] =
      .ok (writeOuts pureW (fun s _ => s) true "p" "e" "t"
          (List.replicate (3 - 1) "c") 1 [], 0 + (3 - 1), countdown (3 - 1)) ∧
    genLoop pureW (fun s _ => s) ⟨fun _ _ _ _ => [], true⟩ false "p" "e" "t"
        3 1 0 [] = .error "No outputs from model!" := by
  have hg : GoodBackend ⟨fun _ _ _ n => List.replicate (min n 2) "c", true⟩ := by
    intro k p ds n hn
    refine ⟨?_, ?_⟩ <;> simp <;> omega
  refine ⟨hg, by omega, ?_, ?_, ?_⟩
  · exact (scheduler_rounds (fun s _ => s) false "p" "e" "t" 3 1 0).1
      (List Sample) pureW [] _ hg (by omega)
  · exact (scheduler_rounds (fun s _ => s) false "p" "e" "t" 3 1 0).2.1
      (List Sample) pureW [] true "c"
  · exact (scheduler_rounds (fun s _ => s) false "p" "e" "t" 3 1 0).2.2
      (List Sample) pureW [] ⟨fun _ _ _ _ => [], true⟩ (by omega) rfl

/-- C2 counterexample: the resume scan is NOT tolerant of malformed lines: a
log consisting of one malformed line aborts the scan with the JSON decode
error (while a blank line is skipped silently), contradicting the claim that
any unparseable line is skipped and the run not aborted. -/
theorem malformed_line_aborts_scan :
    scanLines [Line.malformed] (fun _ => 0) =
      .error "json.decoder.JSONDecodeError" ∧
    scanLines [Line.blank] (fun _ => 0) = .ok (fun _ => 0) :=
  ⟨rfl, rfl⟩

/-- C2 amended: during the resume scan only blank lines are skipped silently;
a well-formed line increments exactly its task's counter; and a log containing
any malformed (unparseable) line aborts the scan — and hence the run — with
the JSON decode error. -/
theorem scan_skips_blank_only :
    (∀ (lines : List Line) (t2n : String → Nat), Line.malformed ∉ lines →
      ∃ t2nF, scanLines lines t2n = .ok t2nF ∧
        ∀ tid, t2nF tid = t2n tid + countRecords lines tid) ∧
    (∀ (lines : List Line) (t2n : String → Nat), Line.malformed ∈ lines →
      scanLines lines t2n = .error "json.decoder.JSONDecodeError") := by
  constructor
  · intro lines
    induction lines with
    | nil =>
      intro t2n hm
      exact ⟨t2n, rfl, fun tid => by simp [countRecords]⟩
    | cons l rest ih =>
      intro t2n hm
      match l with
      | Line.blank =>
        obtain ⟨t2nF, h1, h2⟩ := ih t2n (fun hc => hm (List.mem_cons_of_mem _ hc))
        refine ⟨t2nF, h1, fun tid => ?_⟩
        rw [h2 tid]
        simp [countRecords]
      | Line.record r =>
        obtain ⟨t2nF, h1, h2⟩ :=
          ih (fun u => if u = r then t2n u + 1 else t2n u)
            (fun hc => hm (List.mem_cons_of_mem _ hc))
        refine ⟨t2nF, h1, fun tid => ?_⟩
        rw [h2 tid]
        by_cases hr : tid = r
        · subst hr
          simp [countRecords, List.filter]
          omega
        · simp [countRecords, List.filter, hr, Ne.symm hr]
      | Line.malformed => exact absurd (List.mem_cons_self _ _) hm
  · intro lines
    induction lines with
    | nil =>
      intro t2n hm
      simp at hm
    | cons l rest ih =>
      intro t2n hm
      match l with
      | Line.blank =>
        have : Line.malformed ∈ rest := by
          rcases List.mem_cons.mp hm with h | h
          · cases h
          · exact h
        exact ih t2n this
      | Line.record r =>
        have : Line.malformed ∈ rest := by
          rcases List.mem_cons.mp hm with h | h
          · cases h
          · exact h
        exact ih _ this
      | Line.malformed => rfl

/-- C2 amended witness: scanning a log of a blank line and three well-formed
records (two for task a, one for task b) succeeds and reports count 2 for a
and 1 for b. -/
theorem scan_skips_blank_only_witness :
    Line.malformed ∉
      [Line.blank, Line.record "a", Line.record "b", Line.record "a"] ∧
    ∃ t2nF,
      scanLines [Line.blank, Line.record "a", Line.record "b", Line.record "a"]
        (fun _ => 0) = .ok t2nF ∧
      ∀ tid, t2nF tid = (fun _ => 0) tid + countRecords
        [Line.blank, Line.record "a", Line.record "b", Line.record "a"] tid :=
  ⟨by decide,
    scan_skips_blank_only.1
      [Line.blank, Line.record "a", Line.record "b", Line.record "a"]
      (fun _ => 0) (by decide)⟩

/-- C10 (prompt normalization): the prompt a generation round sends is the
task's prompt stripped of surrounding whitespace with a single newline
appended; consequently, for a direct-completion backend every persisted raw
solution is that normalized prompt followed by the returned completion (not
the original prompt text). -/
theorem prompt_normalized (sanitize : String → String → String) (model : Model)
    (greedy resume : Bool) (n_samples : Nat) (id_range : Option (Int × Int))
    (nexist : Nat) (task_id : String) (task : Task) (k : Nat)
    (out : RunOut (List Sample)) (s : Sample)
    (hd : model.direct = true)
    (hok : codegenTask pureW sanitize model greedy resume n_samples id_range
      nexist task_id task k [] = .ok out)
    (hs : s ∈ out.st) :
    ∃ impl, s.solution = (task.prompt.trim ++ "\n") ++ impl := by
  obtain ⟨impls, hst⟩ := codegenTask_ok_inv pureW sanitize model greedy resume
    n_samples id_range nexist task_id task k [] out hok
  rw [hst, writeOuts_pureW, List.nil_append] at hs
  obtain ⟨-, -, impl, hmem, hsol⟩ := samplesOf_mem sanitize model.direct
    (normPrompt task.prompt) task.entry_point task_id impls _ s hs
  refine ⟨impl, ?_⟩
  rw [hsol, solutionOf, hd]
  simp [normPrompt]

/-- C10 witness: a concrete one-round run on a task with prompt " p " and a
direct-completion backend returning "body": the single persisted sample's raw
text is the normalized prompt (" p ".trim plus a newline) followed by "body". -/
theorem prompt_normalized_witness :
    codegenTask pureW (fun s _ => s) ⟨fun _ _ _ _ => ["body"], true⟩ false true
        1 none 0 "t/0" ⟨" p ", "f"⟩ 0 [] =
      .ok ⟨.ran none,
        [⟨"t/0", 0, normPrompt " p " ++ "body", normPrompt " p " ++ "body"⟩],
        1, [1]⟩ ∧
    ∃ impl, (Sample.mk "t/0" 0 (normPrompt " p " ++ "body")
        (normPrompt " p " ++ "body")).solution = (" p ".trim ++ "\n") ++ impl := by
  have hok : codegenTask pureW (fun s _ => s)
      ⟨fun _ _ _ _ => ["body"], true⟩ false true 1 none 0 "t/0" ⟨" p ", "f"⟩ 0
      [] =
      .ok ⟨.ran none,
        [⟨"t/0", 0, normPrompt " p " ++ "body", normPrompt " p " ++ "body"⟩],
        1, [1]⟩ := by
    simp [codegenTask, genLoop.eq_def, startIdx, writeOuts, pureW, solutionOf,
      taskIncluded]
  exact ⟨hok,
    prompt_normalized (fun s _ => s) ⟨fun _ _ _ _ => ["body"], true⟩ false true
      1 none 0 "t/0" ⟨" p ", "f"⟩ 0 _ _ rfl hok (by simp)⟩

/-- C3 (directory creation before writes): REFUTED for the raw tree.  Before a
task's writes, the directory layout creates only the sanitized directories
(target root and target/p_name); no directory under the raw root
(target + ".raw") is ever created.  Consequently the sanitized write succeeds
but the mirrored raw write of the very same sample fails with
FileNotFoundError for every target path, task directory and index, on a fresh
file system. -/
theorem raw_dir_never_created (target_path p_name solution sanitized : String)
    (sidx : Nat) :
    (∃ fs1, openWrite (dirLayoutSetup target_path p_name ⟨[], []⟩)
        [target_path, p_name, sampleFileName sidx] sanitized = .ok fs1) ∧
    writeDirSample target_path p_name sidx solution sanitized
        (dirLayoutSetup target_path p_name ⟨[], []⟩) =
      .error "FileNotFoundError" := by
  have hraw : rawTargetPath target_path ≠ target_path := by
    intro h
    have hl := congrArg String.length h
    rw [rawTargetPath, String.length_append] at hl
    have h4 : (".raw" : String).length = 4 := by decide
    omega
  have hdirs : (dirLayoutSetup target_path p_name ⟨[], []⟩).dirs =
      [[target_path], [target_path], [target_path, p_name]] := rfl
  have hmem : ([target_path, p_name, sampleFileName sidx] : List String).dropLast
      ∈ (dirLayoutSetup target_path p_name ⟨[], []⟩).dirs := by
    rw [hdirs]
    simp [List.dropLast]
  have hok1 : openWrite (dirLayoutSetup target_path p_name ⟨[], []⟩)
      [target_path, p_name, sampleFileName sidx] sanitized =
      .ok { dirLayoutSetup target_path p_name ⟨[], []⟩ with
        files := (dirLayoutSetup target_path p_name ⟨[], []⟩).files ++
          [([target_path, p_name, sampleFileName sidx], sanitized)] } := by
    rw [openWrite, if_pos (Or.inr hmem)]
  refine ⟨⟨_, hok1⟩, ?_⟩
  rw [writeDirSample, hok1]
  show openWrite { dirLayoutSetup target_path p_name ⟨[], []⟩ with
      files := (dirLayoutSetup target_path p_name ⟨[], []⟩).files ++
        [([target_path, p_name, sampleFileName sidx], sanitized)] }
    [rawTargetPath target_path, p_name, sampleFileName sidx] solution =
    .error "FileNotFoundError"
  rw [openWrite, if_neg ?_]
  intro hc
  rcases hc with hc | hc
  · simp [List.dropLast] at hc
  · rw [hdirs] at hmem
    simp only [List.dropLast] at hc
    have : ([rawTargetPath target_path, p_name] : List String) ∈
        [[target_path], [target_path], [target_path, p_name]] := hc
    simp [hraw] at this

/-- Content-level pairing, modulo the missing raw-directory bug (see
raw_dir_never_created): in either layout, the records the writer branches
append to the sanitized output and to the raw output during one task pair up
one-to-one in write order — for the jsonl layout the i-th sanitized and raw
log lines carry the same task_id (the processed task's) and the sanitized
solution is the sanitizer applied to the raw solution with the task's entry
point; for the directory layout (with its failing write modelled as
succeeding, which on the real code it does not) the i-th sanitized and raw
files would share the directory name and the index, the sanitized content
being the sanitizer applied to the raw content. -/
theorem raw_sanitized_pairing (sanitize : String → String → String)
    (model : Model) (greedy resume : Bool) (n_samples : Nat)
    (id_range : Option (Int × Int)) (nexist : Nat) (task_id : String)
    (task : Task) (k : Nat) :
    (∀ out : RunOut JsonlState,
      codegenTask jsonlW sanitize model greedy resume n_samples id_range nexist
        task_id task k ⟨[], []⟩ = .ok out →
      out.st.sanLog.length = out.st.rawLog.length ∧
      ∀ pr ∈ out.st.sanLog.zip out.st.rawLog,
        pr.1.task_id = pr.2.task_id ∧ pr.1.task_id = task_id ∧
        pr.1.solution = sanitize pr.2.solution task.entry_point) ∧
    (∀ out : RunOut DirState,
      codegenTask dirW sanitize model greedy resume n_samples id_range nexist
        task_id task k ⟨[], []⟩ = .ok out →
      out.st.sanFiles.length = out.st.rawFiles.length ∧
      ∀ pr ∈ out.st.sanFiles.zip out.st.rawFiles,
        pr.1.1 = pr.2.1 ∧ pr.1.2.1 = pr.2.2.1 ∧
        pr.1.2.2 = sanitize pr.2.2.2 task.entry_point) := by
  constructor
  · intro out hok
    obtain ⟨impls, hst⟩ := codegenTask_ok_inv jsonlW sanitize model greedy
      resume n_samples id_range nexist task_id task k ⟨[], []⟩ out hok
    rw [hst, writeOuts_jsonlW]
    constructor
    · simp
    · intro pr hpr
      simp only [List.nil_append] at hpr
      rw [List.zip_map'] at hpr
      obtain ⟨s, hsmem, hpr⟩ := List.mem_map.mp hpr
      obtain ⟨h1, h2, -⟩ := samplesOf_mem sanitize model.direct
        (normPrompt task.prompt) task.entry_point task_id impls _ s hsmem
      rw [← hpr]
      exact ⟨rfl, h1, h2⟩
  · intro out hok
    obtain ⟨impls, hst⟩ := codegenTask_ok_inv dirW sanitize model greedy
      resume n_samples id_range nexist task_id task k ⟨[], []⟩ out hok
    rw [hst, writeOuts_dirW]
    constructor
    · simp
    · intro pr hpr
      simp only [List.nil_append] at hpr
      rw [List.zip_map'] at hpr
      obtain ⟨s, hsmem, hpr⟩ := List.mem_map.mp hpr
      obtain ⟨-, h2, -⟩ := samplesOf_mem sanitize model.direct
        (normPrompt task.prompt) task.entry_point task_id impls _ s hsmem
      rw [← hpr]
      exact ⟨rfl, rfl, h2⟩

/-- Concrete instance of the content-level pairing: a one-sample run in each
layout, the single sanitized and raw records pairing up with the same task_id
(jsonl) resp. the same directory name and index (directory layout, modulo the
missing raw-directory bug), the sanitized text being the sanitizer's output on
the raw text. -/
theorem raw_sanitized_pairing_witness :
    (codegenTask jsonlW (fun s _ => s) ⟨fun _ _ _ _ => ["b"], false⟩ false true
        1 none 0 "t/0" ⟨"p", "e"⟩ 0 ⟨[], []⟩ =
      .ok ⟨.ran none, ⟨[⟨"t/0", "b"⟩], [⟨"t/0", "b"⟩]⟩, 1, [1]⟩) ∧
    ((⟨[⟨"t/0", "b"⟩], [⟨"t/0", "b"⟩]⟩ : JsonlState).sanLog.length =
      (⟨[⟨"t/0", "b"⟩], [⟨"t/0", "b"⟩]⟩ : JsonlState).rawLog.length ∧
      ∀ pr ∈ ([(⟨"t/0", "b"⟩ : LogLine)]).zip [(⟨"t/0", "b"⟩ : LogLine)],
        pr.1.task_id = pr.2.task_id ∧ pr.1.task_id = "t/0" ∧
        pr.1.solution = (fun s _ => s) pr.2.solution "e") ∧
    (codegenTask dirW (fun s _ => s) ⟨fun _ _ _ _ => ["b"], false⟩ false true
        1 none 0 "t/0" ⟨"p", "e"⟩ 0 ⟨[], []⟩ =
      .ok ⟨.ran none, ⟨[(pName "t/0", 0, "b")], [(pName "t/0", 0, "b")]⟩, 1,
        [1]⟩) ∧
    ((⟨[(pName "t/0", 0, "b")], [(pName "t/0", 0, "b")]⟩ :
        DirState).sanFiles.length =
      (⟨[(pName "t/0", 0, "b")], [(pName "t/0", 0, "b")]⟩ :
        DirState).rawFiles.length ∧
      ∀ pr ∈ ([(pName "t/0", 0, "b")] : List (String × Nat × String)).zip
          [(pName "t/0", 0, "b")],
        pr.1.1 = pr.2.1 ∧ pr.1.2.1 = pr.2.2.1 ∧
        pr.1.2.2 = (fun s _ => s) pr.2.2.2 "e") := by
  have hok1 : codegenTask jsonlW (fun s _ => s) ⟨fun _ _ _ _ => ["b"], false⟩
      false true 1 none 0 "t/0" ⟨"p", "e"⟩ 0 ⟨[], []⟩ =
      .ok ⟨.ran none, ⟨[⟨"t/0", "b"⟩], [⟨"t/0", "b"⟩]⟩, 1, [1]⟩ := by
    simp [codegenTask, genLoop.eq_def, startIdx, writeOuts, jsonlW, solutionOf,
      taskIncluded]
  have hok2 : codegenTask dirW (fun s _ => s) ⟨fun _ _ _ _ => ["b"], false⟩
      false true 1 none 0 "t/0" ⟨"p", "e"⟩ 0 ⟨[], []⟩ =
      .ok ⟨.ran none, ⟨[(pName "t/0", 0, "b")], [(pName "t/0", 0, "b")]⟩, 1,
        [1]⟩ := by
    simp [codegenTask, genLoop.eq_def, startIdx, writeOuts, dirW, solutionOf,
      taskIncluded]
  exact ⟨hok1,
    (raw_sanitized_pairing (fun s _ => s) ⟨fun _ _ _ _ => ["b"], false⟩ false
      true 1 none 0 "t/0" ⟨"p", "e"⟩ 0).1 _ hok1,
    hok2,
    (raw_sanitized_pairing (fun s _ => s) ⟨fun _ _ _ _ => ["b"], false⟩ false
      true 1 none 0 "t/0" ⟨"p", "e"⟩ 0).2 _ hok2⟩

/-- C7 (raw/sanitized pairing): REFUTED for the directory layout by the code's
missing raw-directory creation.  On a fresh file system, for every target
path, task directory and sample index, the directory-layout branch persists
the sanitized file `<target>/<p_name>/<sidx>.py` and then aborts with
FileNotFoundError on the mirrored raw write of the very same sample: the
on-disk state after the crash holds that sanitized sample while containing no
file at the mirrored raw path — a sanitized sample with no raw counterpart at
the same (task directory, index), violating the claimed pairing. -/
theorem sanitized_without_raw_counterpart
    (target_path p_name solution sanitized : String) (sidx : Nat) :
    (∃ fs1,
      openWrite (dirLayoutSetup target_path p_name ⟨[], []⟩)
        [target_path, p_name, sampleFileName sidx] sanitized = .ok fs1 ∧
      ([target_path, p_name, sampleFileName sidx], sanitized) ∈ fs1.files ∧
      ∀ pr ∈ fs1.files,
        pr.1 ≠ [rawTargetPath target_path, p_name, sampleFileName sidx]) ∧
    writeDirSample target_path p_name sidx solution sanitized
        (dirLayoutSetup target_path p_name ⟨[], []⟩) =
      .error "FileNotFoundError" := by
  have hraw : rawTargetPath target_path ≠ target_path := by
    intro h
    have hl := congrArg String.length h
    rw [rawTargetPath, String.length_append] at hl
    have h4 : (".raw" : String).length = 4 := by decide
    omega
  have hdirs : (dirLayoutSetup target_path p_name ⟨[], []⟩).dirs =
      [[target_path], [target_path], [target_path, p_name]] := rfl
  have hmem : ([target_path, p_name, sampleFileName sidx] : List String).dropLast
      ∈ (dirLayoutSetup target_path p_name ⟨[], []⟩).dirs := by
    rw [hdirs]
    simp [List.dropLast]
  have hok1 : openWrite (dirLayoutSetup target_path p_name ⟨[], []⟩)
      [target_path, p_name, sampleFileName sidx] sanitized =
      .ok { dirLayoutSetup target_path p_name ⟨[], []⟩ with
        files := (dirLayoutSetup target_path p_name ⟨[], []⟩).files ++
          [([target_path, p_name, sampleFileName sidx], sanitized)] } := by
    rw [openWrite, if_pos (Or.inr hmem)]
  have hfiles : ({ dirLayoutSetup target_path p_name ⟨[], []⟩ with
      files := (dirLayoutSetup target_path p_name ⟨[], []⟩).files ++
        [([target_path, p_name, sampleFileName sidx], sanitized)] }
        : DirFS).files =
      [([target_path, p_name, sampleFileName sidx], sanitized)] := rfl
  constructor
  · refine ⟨_, hok1, ?_, ?_⟩
    · rw [hfiles]
      simp
    · intro pr hpr
      rw [hfiles] at hpr
      have hpr2 : pr = ([target_path, p_name, sampleFileName sidx], sanitized) := by
        simpa using hpr
      rw [hpr2]
      intro hceq
      simp only [List.cons.injEq] at hceq
      exact hraw hceq.1.symm
  · rw [writeDirSample, hok1]
    show openWrite { dirLayoutSetup target_path p_name ⟨[], []⟩ with
        files := (dirLayoutSetup target_path p_name ⟨[], []⟩).files ++
          [([target_path, p_name, sampleFileName sidx], sanitized)] }
      [rawTargetPath target_path, p_name, sampleFileName sidx] solution =
      .error "FileNotFoundError"
    rw [openWrite, if_neg ?_]
    intro hc
    rcases hc with hc | hc
    · simp [List.dropLast] at hc
    · rw [hdirs] at hmem
      simp only [List.dropLast] at hc
      have hin : ([rawTargetPath target_path, p_name] : List String) ∈
          [[target_path], [target_path], [target_path, p_name]] := hc
      simp [hraw] at hin

theorem codegen_jsonl_dir (sanitize : String → String → String) (model : Model)
    (greedy resume : Bool) (n_samples : Nat) (id_range : Option (Int × Int)) :
    ∀ (dataset : List (String × Task)) (k : Nat) (sj : JsonlState)
      (sd : DirState),
    (dataset.map (fun x => pName x.1)).Nodup →
    (∀ tid ∈ dataset.map Prod.fst, countFiles sd (pName tid) = 0) →
    (∃ e,
      codegen jsonlW sanitize model greedy resume n_samples id_range
        (fun _ _ => 0) dataset k sj = .error e ∧
      codegen dirW sanitize model greedy resume n_samples id_range
        (fun st tid => countFiles st (pName tid)) dataset k sd = .error e) ∨
    (∃ (reps : List (String × TaskReport)) (samples : List Sample) (kF : Nat),
      codegen jsonlW sanitize model greedy resume n_samples id_range
          (fun _ _ => 0) dataset k sj =
        .ok (reps,
          ⟨sj.sanLog ++ samples.map
              (fun s => { task_id := s.task_id, solution := s.sanitized_solution }),
            sj.rawLog ++ samples.map
              (fun s => { task_id := s.task_id, solution := s.solution })⟩, kF) ∧
      codegen dirW sanitize model greedy resume n_samples id_range
          (fun st tid => countFiles st (pName tid)) dataset k sd =
        .ok (reps,
          ⟨sd.sanFiles ++ samples.map
              (fun s => (pName s.task_id, s.sidx, s.sanitized_solution)),
            sd.rawFiles ++ samples.map
              (fun s => (pName s.task_id, s.sidx, s.solution))⟩, kF) ∧
      (∀ s ∈ samples, s.task_id ∈ dataset.map Prod.fst)) := by
  intro dataset
  induction dataset with
  | nil =>
    intro k sj sd hp h0
    right
    refine ⟨[], [], k, ?_, ?_, ?_⟩
    · simp [codegen]
    · simp [codegen]
    · simp
  | cons hd rest ih =>
    obtain ⟨tid, task⟩ := hd
    intro k sj sd hp h0
    have hc0 : countFiles sd (pName tid) = 0 := h0 tid (by simp)
    rw [List.map_cons, List.nodup_cons] at hp
    have hpt : pName (tid, task).1 ∉ rest.map (fun x => pName x.1) := hp.1
    have hp2 : (rest.map (fun x => pName x.1)).Nodup := hp.2
    rcases codegenTask_pair jsonlW dirW sanitize model greedy resume n_samples
      id_range 0 tid task k sj sd with
      ⟨e, he1, he2⟩ | ⟨rep, impls, kF0, reqs, he1, he2⟩
    · left
      refine ⟨e, ?_, ?_⟩
      · simp only [codegen]
        rw [he1]
      · simp only [codegen]
        rw [hc0, he2]
    · have hSmem : ∀ s ∈ samplesOf sanitize model.direct
          (normPrompt task.prompt) task.entry_point tid impls
          (startIdx resume n_samples 0).toNat, s.task_id = tid := by
        intro s hs
        exact (samplesOf_mem sanitize model.direct (normPrompt task.prompt)
          task.entry_point tid impls _ s hs).1
      have h0' : ∀ t2 ∈ rest.map Prod.fst,
          countFiles (writeOuts dirW sanitize model.direct
            (normPrompt task.prompt) task.entry_point tid impls
            (startIdx resume n_samples 0).toNat sd) (pName t2) = 0 := by
        intro t2 ht2
        have hneq : pName tid ≠ pName t2 := by
          intro hq
          apply hpt
          rw [hq]
          obtain ⟨x, hx, hx2⟩ := List.mem_map.mp ht2
          exact List.mem_map.mpr ⟨x, hx, by rw [hx2]⟩
        have hfilter : ((samplesOf sanitize model.direct
            (normPrompt task.prompt) task.entry_point tid impls
            (startIdx resume n_samples 0).toNat).map
              (fun s => (pName s.task_id, s.sidx, s.sanitized_solution))).filter
            (fun r => r.1 = pName t2) = [] := by
          rw [List.filter_eq_nil_iff]
          intro a ha
          obtain ⟨s, hsm, hfa⟩ := List.mem_map.mp ha
          rw [← hfa]
          simp only [decide_eq_true_eq]
          rw [hSmem s hsm]
          exact hneq
        rw [writeOuts_dirW]
        simp only [countFiles, List.filter_append, List.length_append, hfilter,
          List.length_nil]
        have := h0 t2 (List.mem_cons_of_mem _ ht2)
        simp only [countFiles] at this
        omega
      rcases ih kF0
        (writeOuts jsonlW sanitize model.direct (normPrompt task.prompt)
          task.entry_point tid impls (startIdx resume n_samples 0).toNat sj)
        (writeOuts dirW sanitize model.direct (normPrompt task.prompt)
          task.entry_point tid impls (startIdx resume n_samples 0).toNat sd)
        hp2 h0' with ⟨e, hr1, hr2⟩ | ⟨reps, samples2, kF, hr1, hr2, hmem2⟩
      · left
        refine ⟨e, ?_, ?_⟩
        · simp only [codegen]
          rw [he1]
          dsimp only
          rw [hr1]
        · simp only [codegen]
          rw [hc0, he2]
          dsimp only
          rw [hr2]
      · right
        refine ⟨(tid, rep) :: reps,
          samplesOf sanitize model.direct (normPrompt task.prompt)
            task.entry_point tid impls (startIdx resume n_samples 0).toNat ++
            samples2, kF, ?_, ?_, ?_⟩
        · simp only [codegen]
          rw [he1]
          dsimp only
          rw [hr1, writeOuts_jsonlW]
          simp [List.append_assoc]
        · simp only [codegen]
          rw [hc0, he2]
          dsimp only
          rw [hr2, writeOuts_dirW]
          simp [List.append_assoc]
        · intro s hs
          rcases List.mem_append.mp hs with h | h
          · have h1 := hSmem s h
            simp only [List.map_cons, List.mem_cons]
            left
            exact h1
          · have := hmem2 s h
            simp only [List.map_cons, List.mem_cons]
            right
            exact this

/-- C8 (Layout equivalence): for the same task set, backend and sample count,
a fresh run in the single-log layout and a fresh run in the per-task-directory
layout either fail identically or persist exactly the same samples: the same
per-task reports, the same backend call count, and the same list (hence
multiset) of (task_id, raw text, sanitized text) tuples — the two writer
branches differ only in the physical representation of those tuples
(log records versus directory-named, index-named files), assuming the task
identifiers stay distinguishable after the slash-to-underscore renaming. -/
theorem layout_equivalence (sanitize : String → String → String) (model : Model)
    (greedy resume : Bool) (n_samples : Nat) (id_range : Option (Int × Int))
    (dataset : List (String × Task))
    (hp : (dataset.map (fun x => pName x.1)).Nodup)
    (hrec : ∀ tid ∈ dataset.map Prod.fst,
      recoverId (dataset.map Prod.fst) (pName tid) = tid) :
    (∃ e,
      runJsonlFresh sanitize model greedy resume n_samples id_range dataset =
        .error e ∧
      runDirFresh sanitize model greedy resume n_samples id_range dataset =
        .error e) ∨
    (∃ (reps : List (String × TaskReport)) (samples : List Sample) (kF : Nat),
      runJsonlFresh sanitize model greedy resume n_samples id_range dataset =
        .ok (reps,
          ⟨samples.map
              (fun s => { task_id := s.task_id, solution := s.sanitized_solution }),
            samples.map
              (fun s => { task_id := s.task_id, solution := s.solution })⟩, kF) ∧
      runDirFresh sanitize model greedy resume n_samples id_range dataset =
        .ok (reps,
          ⟨samples.map (fun s => (pName s.task_id, s.sidx, s.sanitized_solution)),
            samples.map (fun s => (pName s.task_id, s.sidx, s.solution))⟩, kF) ∧
      DirState.tuples
          ⟨samples.map (fun s => (pName s.task_id, s.sidx, s.sanitized_solution)),
            samples.map (fun s => (pName s.task_id, s.sidx, s.solution))⟩
          (dataset.map Prod.fst) =
        JsonlState.tuples
          ⟨samples.map
              (fun s => { task_id := s.task_id, solution := s.sanitized_solution }),
            samples.map
              (fun s => { task_id := s.task_id, solution := s.solution })⟩ ∧
      JsonlState.tuples
          ⟨samples.map
              (fun s => { task_id := s.task_id, solution := s.sanitized_solution }),
            samples.map
              (fun s => { task_id := s.task_id, solution := s.solution })⟩ =
        samples.map (fun s => (s.task_id, s.solution, s.sanitized_solution))) := by
  have h0 : ∀ tid ∈ dataset.map Prod.fst,
      countFiles ⟨[], []⟩ (pName tid) = 0 := by
    intro tid _
    rfl
  rcases codegen_jsonl_dir sanitize model greedy resume n_samples id_range
    dataset 0 ⟨[], []⟩ ⟨[], []⟩ hp h0 with
    ⟨e, h1, h2⟩ | ⟨reps, samples, kF, h1, h2, hmem⟩
  · left
    exact ⟨e, h1, h2⟩
  · right
    refine ⟨reps, samples, kF, ?_, ?_, ?_, ?_⟩
    · unfold runJsonlFresh
      rw [h1]
      simp
    · unfold runDirFresh
      rw [h2]
      simp
    · unfold DirState.tuples JsonlState.tuples
      rw [List.zipWith_map, List.zipWith_same, List.zipWith_map,
        List.zipWith_same]
      apply List.map_congr_left
      intro s hsm
      simp only
      rw [hrec s.task_id (hmem s hsm)]
    · unfold JsonlState.tuples
      rw [List.zipWith_map, List.zipWith_same]

/-- C8 witness: a concrete fresh run over the single task "t/0" with a
one-completion backend: both layouts succeed with the same report, call count
and sample content, and the extracted (task_id, raw, sanitized) tuples of the
two layouts coincide. -/
theorem layout_equivalence_witness :
    (∃ e,
      runJsonlFresh (fun s _ => s) ⟨fun _ _ _ _ => ["b"], false⟩ false true 1
          none [("t/0", ⟨"p", "e"⟩)] = .error e ∧
      runDirFresh (fun s _ => s) ⟨fun _ _ _ _ => ["b"], false⟩ false true 1
          none [("t/0", ⟨"p", "e"⟩)] = .error e) ∨
    (∃ (reps : List (String × TaskReport)) (samples : List Sample) (kF : Nat),
      runJsonlFresh (fun s _ => s) ⟨fun _ _ _ _ => ["b"], false⟩ false true 1
          none [("t/0", ⟨"p", "e"⟩)] =
        .ok (reps,
          ⟨samples.map
              (fun s => { task_id := s.task_id, solution := s.sanitized_solution }),
            samples.map
              (fun s => { task_id := s.task_id, solution := s.solution })⟩, kF) ∧
      runDirFresh (fun s _ => s) ⟨fun _ _ _ _ => ["b"], false⟩ false true 1
          none [("t/0", ⟨"p", "e"⟩)] =
        .ok (reps,
          ⟨samples.map (fun s => (pName s.task_id, s.sidx, s.sanitized_solution)),
            samples.map (fun s => (pName s.task_id, s.sidx, s.solution))⟩, kF) ∧
      DirState.tuples
          ⟨samples.map (fun s => (pName s.task_id, s.sidx, s.sanitized_solution)),
            samples.map (fun s => (pName s.task_id, s.sidx, s.solution))⟩
          ([("t/0", (⟨"p", "e"⟩ : Task))].map Prod.fst) =
        JsonlState.tuples
          ⟨samples.map
              (fun s => { task_id := s.task_id, solution := s.sanitized_solution }),
            samples.map
              (fun s => { task_id := s.task_id, solution := s.solution })⟩ ∧
      JsonlState.tuples
          ⟨samples.map
              (fun s => { task_id := s.task_id, solution := s.sanitized_solution }),
            samples.map
              (fun s => { task_id := s.task_id, solution := s.solution })⟩ =
        samples.map (fun s => (s.task_id, s.solution, s.sanitized_solution))) :=
  layout_equivalence (fun s _ => s) ⟨fun _ _ _ _ => ["b"], false⟩ false true 1
    none [("t/0", ⟨"p", "e"⟩)] (by simp)
    (by
      intro tid htid
      simp only [List.map_cons, List.map_nil, List.mem_singleton] at htid
      subst htid
      simp [recoverId])

end EvalPlus
